import Mathlib

/-!
Verification of the balance-consistency engine of a B2B crypto wallet
service.  The development shallowly embeds the Django models, signals,
serializers and viewsets that implement the engine:

* `Wallet` and `Transaction` mirror `api/models.py`; decimal amounts are
  represented as integers scaled by ten to the eighteenth (the storage
  scale of the `DecimalField` columns), and incoming literal amounts as
  `DecimalValue` (coefficient times ten to a signed exponent), mirroring
  the `Decimal` tuples inspected by the serializer.
* `Transaction.clean`, `Transaction.save`, `Transaction.delete` mirror
  the model methods; `update_wallet_balance_on_transaction_save` and
  `update_wallet_balance_on_transaction_delete` mirror `api/signals.py`.
* `TransactionSerializer.*` mirrors `api/serializers.py`; the
  `perform*` functions mirror the viewset actions of `api/views.py`,
  including the `transaction.atomic` rollback on validation errors.
* A small lock machine (`Sched`, `LStep`) models the
  `select_for_update` row lock held from balance validation until the
  balance delta is applied.
-/

/-- A stored wallet row: primary key, unique label, and the running
balance in units of ten to the minus eighteen. -/
structure Wallet where
  pk : Nat
  label : String
  balance : Int
deriving Repr, DecidableEq

/-- A stored transaction row: primary key, owning wallet, unique
external identifier and the signed amount in units of ten to the minus
eighteen. -/
structure Transaction where
  pk : Nat
  walletId : Nat
  txid : String
  amount : Int
deriving Repr, DecidableEq

/-- The persistent state: the wallet table and the transaction table. -/
structure DBState where
  wallets : List Wallet
  transactions : List Transaction
deriving Repr, DecidableEq

/-- Validation failures surfaced by the engine, keyed like the
`ValidationError` dictionaries of the source. -/
inductive ApiError where
  | walletNotFound
  | transactionNotFound
  | duplicateTxid
  | duplicateLabel
  | precisionExceeded
  | negativeBalance (field : String)
deriving Repr, DecidableEq

/-- `Wallet.objects.get(pk=...)`: first wallet row with the given
primary key. -/
def findWallet (s : DBState) (pk : Nat) : Option Wallet :=
  s.wallets.find? (fun w => w.pk == pk)

/-- `Transaction.objects.get(pk=...)`: first transaction row with the
given primary key. -/
def findTransaction (s : DBState) (pk : Nat) : Option Transaction :=
  s.transactions.find? (fun t => t.pk == pk)

/-- `Transaction.objects.filter(txid=value).exists()`. -/
def txidExists (s : DBState) (txid : String) : Bool :=
  s.transactions.any (fun t => t.txid == txid)

/-- Auto-increment primary key for a fresh transaction row. -/
def DBState.nextTransactionPk (s : DBState) : Nat :=
  (s.transactions.foldr (fun t m => max t.pk m) 0) + 1

/-- Auto-increment primary key for a fresh wallet row. -/
def DBState.nextWalletPk (s : DBState) : Nat :=
  (s.wallets.foldr (fun w m => max w.pk m) 0) + 1

/-- `Wallet.objects.filter(pk=walletId).update(balance=F(balance) + delta)`:
adds `delta` to the balance of every wallet row with the given key. -/
def DBState.updateWalletBalance (s : DBState) (walletId : Nat) (delta : Int) : DBState :=
  { s with wallets := s.wallets.map (fun w =>
      if w.pk == walletId then { w with balance := w.balance + delta } else w) }

/-- A decimal literal as the serializer sees it: the value is
`coeff * 10 ^ exponent`, mirroring `Decimal.as_tuple()`. -/
structure DecimalValue where
  coeff : Int
  exponent : Int
deriving Repr, DecidableEq

/-- Number of fractional digits of the literal. -/
def DecimalValue.fracDigits (d : DecimalValue) : Nat :=
  (-d.exponent).toNat

/-- The rational value denoted by the literal. -/
def DecimalValue.value (d : DecimalValue) : ℚ :=
  (d.coeff : ℚ) * (10 : ℚ) ^ d.exponent

/-- Conversion to the fixed-point storage representation (units of ten
to the minus eighteen); exact whenever the exponent is at least minus
eighteen. -/
def DecimalValue.toScaled (d : DecimalValue) : Int :=
  d.coeff * 10 ^ (d.exponent + 18).toNat

/-- `Transaction.clean` from `api/models.py`: looks the wallet up under
a row lock, computes the prospective balance (for a new row, balance
plus amount; for an update, balance plus the difference to the old
stored amount) and rejects a negative prospective balance with an error
keyed to `amount`. -/
def Transaction.clean (s : DBState) (pk? : Option Nat) (walletId : Nat) (amount : Int) :
    Except ApiError Unit :=
  match findWallet s walletId with
  | none => .error .walletNotFound
  | some w =>
    match pk? with
    | none =>
      if w.balance + amount < 0 then .error (.negativeBalance "amount") else .ok ()
    | some pk =>
      match findTransaction s pk with
      | none => .error .transactionNotFound
      | some old =>
        if w.balance + (amount - old.amount) < 0 then .error (.negativeBalance "amount")
        else .ok ()

/-- The `validate_unique` stage of Django `full_clean` for the unique
`txid` column: rejects when another row (excluding the instance itself)
already carries the value. -/
def Transaction.validateUnique (s : DBState) (pk? : Option Nat) (txid : String) :
    Except ApiError Unit :=
  if s.transactions.any (fun t => t.txid == txid && pk?.all (fun pk => t.pk != pk)) then
    .error .duplicateTxid
  else .ok ()

/-- `full_clean` on a transaction instance: the custom `clean` followed
by the uniqueness validation. -/
def Transaction.full_clean (s : DBState) (pk? : Option Nat) (walletId : Nat) (txid : String)
    (amount : Int) : Except ApiError Unit := do
  Transaction.clean s pk? walletId amount
  Transaction.validateUnique s pk? txid

/-- The `post_save` receiver from `api/signals.py`: adds the amount to
the wallet balance, but only when the save created the row. -/
def update_wallet_balance_on_transaction_save (s : DBState) (t : Transaction)
    (created : Bool) : DBState :=
  if !created then s
  else s.updateWalletBalance t.walletId t.amount

/-- The `post_delete` receiver from `api/signals.py`: subtracts the
amount from the wallet balance. -/
def update_wallet_balance_on_transaction_delete (s : DBState) (t : Transaction) : DBState :=
  s.updateWalletBalance t.walletId (-t.amount)

/-- `Transaction.save` from `api/models.py`: runs `full_clean`
unconditionally, writes the row (insert for a fresh instance, update
for an existing primary key) and fires the `post_save` receiver. -/
def Transaction.save (s : DBState) (pk? : Option Nat) (walletId : Nat) (txid : String)
    (amount : Int) : Except ApiError DBState := do
  Transaction.full_clean s pk? walletId txid amount
  match pk? with
  | none =>
    let t : Transaction :=
      { pk := s.nextTransactionPk, walletId := walletId, txid := txid, amount := amount }
    let s1 : DBState := { s with transactions := s.transactions ++ [t] }
    pure (update_wallet_balance_on_transaction_save s1 t true)
  | some pk =>
    let t : Transaction := { pk := pk, walletId := walletId, txid := txid, amount := amount }
    let s1 : DBState :=
      { s with transactions := s.transactions.map (fun o => if o.pk == pk then t else o) }
    pure (update_wallet_balance_on_transaction_save s1 t false)

/-- `Transaction.delete` from `api/models.py`: locks the wallet row,
rejects the deletion when the balance minus the amount would be
negative (error keyed to `non_field_errors`), otherwise removes the row
and fires the `post_delete` receiver. -/
def Transaction.delete (s : DBState) (t : Transaction) : Except ApiError DBState :=
  match findWallet s t.walletId with
  | none => .error .walletNotFound
  | some w =>
    if w.balance - t.amount < 0 then .error (.negativeBalance "non_field_errors")
    else
      let s1 : DBState := { s with transactions := s.transactions.filter (fun o => o.pk != t.pk) }
      .ok (update_wallet_balance_on_transaction_delete s1 t)

/-- `TransactionSerializer.validate_amount`: rejects a literal with
more than eighteen fractional digits; a pure format check. -/
def TransactionSerializer.validate_amount (value : DecimalValue) :
    Except ApiError DecimalValue :=
  if value.exponent < -18 then .error .precisionExceeded else .ok value

/-- `TransactionSerializer.validate_txid`: on create, or on an update
that changes the `txid`, rejects a value that some stored transaction
already carries. -/
def TransactionSerializer.validate_txid (s : DBState) (instance? : Option Transaction)
    (value : String) : Except ApiError String :=
  if (match instance? with
      | none => true
      | some t => t.txid ≠ value) then
    if txidExists s value then .error .duplicateTxid else .ok value
  else .ok value

/-- The field-validation stage of `serializer.is_valid()`: the related
wallet field resolution, `validate_amount` and `validate_txid` all run
and their failures accumulate, mirroring how DRF collects per-field
errors. -/
def TransactionSerializer.run_validation (s : DBState) (instance? : Option Transaction)
    (walletId : Nat) (txid : String) (amount : DecimalValue) : List ApiError :=
  (match findWallet s walletId with
   | none => [ApiError.walletNotFound]
   | some _ => [])
  ++ (match TransactionSerializer.validate_amount amount with
      | .error e => [e]
      | .ok _ => [])
  ++ (match TransactionSerializer.validate_txid s instance? txid with
      | .error e => [e]
      | .ok _ => [])

/-- `TransactionSerializer.create`: `full_clean` on the fresh instance
followed by `save` (which runs `full_clean` again). -/
def TransactionSerializer.create (s : DBState) (walletId : Nat) (txid : String)
    (amount : Int) : Except ApiError DBState := do
  Transaction.full_clean s none walletId txid amount
  Transaction.save s none walletId txid amount

/-- `TransactionSerializer.update` for an amount edit: sets the new
amount on the instance, runs `full_clean`, then `save`. -/
def TransactionSerializer.update (s : DBState) (inst : Transaction) (newAmount : Int) :
    Except ApiError DBState := do
  Transaction.full_clean s (some inst.pk) inst.walletId inst.txid newAmount
  Transaction.save s (some inst.pk) inst.walletId inst.txid newAmount

/-- `TransactionViewSet.http_method_names`: `put` and `patch` are
excluded, so the API exposes no transaction update. -/
def TransactionViewSet.http_method_names : List String :=
  ["get", "post", "delete", "head", "options"]

/-- The create endpoint: field validation outside the atomic block,
then `perform_create` wrapping `serializer.save()` in
`transaction.atomic` — any model-validation error rolls the state
back. -/
def performCreateTransaction (s : DBState) (walletId : Nat) (txid : String)
    (amount : DecimalValue) : Except (List ApiError) Unit × DBState :=
  let errs := TransactionSerializer.run_validation s none walletId txid amount
  if errs.isEmpty then
    match TransactionSerializer.create s walletId txid amount.toScaled with
    | .ok s' => (.ok (), s')
    | .error e => (.error [e], s)
  else (.error errs, s)

/-- The field-validation stage for an amount edit: the `txid` is not
changed, so `validate_txid` sees the instance value. -/
def TransactionSerializer.run_validation_update (s : DBState) (inst : Transaction)
    (amount : DecimalValue) : List ApiError :=
  (match TransactionSerializer.validate_amount amount with
   | .error e => [e]
   | .ok _ => [])
  ++ (match TransactionSerializer.validate_txid s (some inst) inst.txid with
      | .error e => [e]
      | .ok _ => [])

/-- The amount-update path through `TransactionSerializer.update`
(unreachable through the API, whose method names exclude `put` and
`patch`): instance lookup, field validation, then the serializer update
inside an atomic block. -/
def performUpdateTransactionAmount (s : DBState) (txPk : Nat) (amount : DecimalValue) :
    Except (List ApiError) Unit × DBState :=
  match findTransaction s txPk with
  | none => (.error [ApiError.transactionNotFound], s)
  | some inst =>
    let errs := TransactionSerializer.run_validation_update s inst amount
    if errs.isEmpty then
      match TransactionSerializer.update s inst amount.toScaled with
      | .ok s' => (.ok (), s')
      | .error e => (.error [e], s)
    else (.error errs, s)

/-- The destroy endpoint: instance lookup (404 when absent), then
`perform_destroy` wrapping `instance.delete()` in `transaction.atomic`. -/
def performDestroyTransaction (s : DBState) (txPk : Nat) :
    Except (List ApiError) Unit × DBState :=
  match findTransaction s txPk with
  | none => (.error [ApiError.transactionNotFound], s)
  | some t =>
    match Transaction.delete s t with
    | .ok s' => (.ok (), s')
    | .error e => (.error [e], s)

/-- `Wallet.clean` from `api/models.py`: rejects a negative balance. -/
def Wallet.clean (w : Wallet) : Except ApiError Unit :=
  if w.balance < 0 then .error (.negativeBalance "balance") else .ok ()

/-- The `validate_unique` stage for the unique wallet label. -/
def Wallet.validateUnique (s : DBState) (pk? : Option Nat) (label : String) :
    Except ApiError Unit :=
  if s.wallets.any (fun w => w.label == label && pk?.all (fun pk => w.pk != pk)) then
    .error .duplicateLabel
  else .ok ()

/-- The wallet create endpoint: the serializer keeps `balance`
read-only, so a fresh wallet starts at zero. -/
def performCreateWallet (s : DBState) (label : String) :
    Except (List ApiError) Unit × DBState :=
  match (do Wallet.validateUnique s none label;
            Wallet.clean { pk := s.nextWalletPk, label := label, balance := 0 } :
         Except ApiError Unit) with
  | .error e => (.error [e], s)
  | .ok _ => (.ok (),
      { s with wallets := s.wallets ++ [{ pk := s.nextWalletPk, label := label, balance := 0 }] })

/-- The wallet partial-update endpoint: `balance` is read-only, so only
the label changes. -/
def performUpdateWalletLabel (s : DBState) (pk : Nat) (label : String) :
    Except (List ApiError) Unit × DBState :=
  match findWallet s pk with
  | none => (.error [ApiError.walletNotFound], s)
  | some w =>
    match (do Wallet.validateUnique s (some pk) label; Wallet.clean { w with label := label } :
        Except ApiError Unit) with
    | .error e => (.error [e], s)
    | .ok _ => (.ok (),
        { s with wallets := s.wallets.map (fun o => if o.pk == pk then { w with label := label } else o) })

/-- The wallet destroy endpoint: `on_delete=CASCADE`, so the wallet row
and every transaction referencing it are removed together. -/
def performDestroyWallet (s : DBState) (pk : Nat) :
    Except (List ApiError) Unit × DBState :=
  match findWallet s pk with
  | none => (.error [ApiError.walletNotFound], s)
  | some _ => (.ok (),
      { wallets := s.wallets.filter (fun w => w.pk != pk),
        transactions := s.transactions.filter (fun t => t.walletId != pk) })

/-- Sum of the amounts of the transactions referencing a wallet. -/
def balanceSum (ts : List Transaction) (walletId : Nat) : Int :=
  (ts.filter (fun t => t.walletId == walletId)).foldr (fun t acc => t.amount + acc) 0

/-- The balance of every wallet equals the sum of the amounts of its
transactions. -/
def Consistent (s : DBState) : Prop :=
  ∀ w ∈ s.wallets, w.balance = balanceSum s.transactions w.pk

/-- No wallet balance is negative. -/
def NonNegative (s : DBState) : Prop :=
  ∀ w ∈ s.wallets, 0 ≤ w.balance

/-- The stored transactions carry pairwise distinct txids. -/
def UniqueTxids (s : DBState) : Prop :=
  (s.transactions.map Transaction.txid).Nodup

instance : DecidablePred Consistent := fun s =>
  inferInstanceAs (Decidable (∀ w ∈ s.wallets, w.balance = balanceSum s.transactions w.pk))

instance : DecidablePred NonNegative := fun s =>
  inferInstanceAs (Decidable (∀ w ∈ s.wallets, 0 ≤ w.balance))

/-! ### Basic lemmas about the table operations -/

theorem find?_map_key {α : Type} (f : α → α) (p : α → Bool) (hf : ∀ a, p (f a) = p a)
    (l : List α) : (l.map f).find? p = (l.find? p).map f := by
  induction l with
  | nil => rfl
  | cons a l ih =>
    simp only [List.map_cons, List.find?]
    rw [hf a]
    cases h : p a with
    | false => simpa using ih
    | true => simp

theorem findWallet_updateWalletBalance (s : DBState) (wid p : Nat) (δ : Int) :
    findWallet (s.updateWalletBalance wid δ) p
      = (findWallet s p).map (fun w =>
          if w.pk == wid then { w with balance := w.balance + δ } else w) := by
  unfold findWallet DBState.updateWalletBalance
  exact find?_map_key _ _ (fun w => by by_cases h : w.pk = wid <;> simp [h]) s.wallets

theorem mem_updateWalletBalance {s : DBState} {wid : Nat} {δ : Int} {w' : Wallet}
    (h : w' ∈ (s.updateWalletBalance wid δ).wallets) :
    ∃ w ∈ s.wallets,
      w' = if w.pk == wid then { w with balance := w.balance + δ } else w := by
  simp only [DBState.updateWalletBalance] at h
  rcases List.mem_map.mp h with ⟨w, hw, he⟩
  exact ⟨w, hw, he.symm⟩

theorem le_foldr_max {t : Transaction} {l : List Transaction} (h : t ∈ l) :
    t.pk ≤ l.foldr (fun t m => max t.pk m) 0 := by
  induction l with
  | nil => cases h
  | cons a l ih =>
    rcases List.mem_cons.mp h with rfl | h
    · exact le_max_left _ _
    · exact le_trans (ih h) (le_max_right _ _)

theorem pk_lt_nextTransactionPk {s : DBState} {t : Transaction}
    (h : t ∈ s.transactions) : t.pk < s.nextTransactionPk :=
  Nat.lt_succ_of_le (le_foldr_max h)

theorem nodup_pk_find? {l : List Wallet} {wid : Nat} {w : Wallet}
    (hnd : (l.map Wallet.pk).Nodup) (hmem : w ∈ l) (hpk : w.pk = wid) :
    l.find? (fun o => o.pk == wid) = some w := by
  cases hfind : l.find? (fun o => o.pk == wid) with
  | none =>
    have hc := List.find?_eq_none.mp hfind w hmem
    rw [hpk] at hc
    simp at hc
  | some w0 =>
    have hm0 : w0 ∈ l := List.mem_of_find?_eq_some hfind
    have hp0 : w0.pk = wid := by simpa using List.find?_some hfind
    have := List.inj_on_of_nodup_map hnd hm0 hmem (by rw [hp0, hpk])
    rw [this]

theorem findWallet_eq_of_mem {s : DBState} {w : Wallet} {wid : Nat}
    (hnd : (s.wallets.map Wallet.pk).Nodup) (hm : w ∈ s.wallets) (hpk : w.pk = wid) :
    findWallet s wid = some w :=
  nodup_pk_find? hnd hm hpk

theorem balanceSum_cons (a : Transaction) (ts : List Transaction) (wid : Nat) :
    balanceSum (a :: ts) wid
      = (if a.walletId == wid then a.amount else 0) + balanceSum ts wid := by
  unfold balanceSum
  rw [List.filter_cons]
  by_cases h : a.walletId = wid <;> simp [h]

theorem balanceSum_append (ts : List Transaction) (t : Transaction) (wid : Nat) :
    balanceSum (ts ++ [t]) wid
      = balanceSum ts wid + (if t.walletId == wid then t.amount else 0) := by
  induction ts with
  | nil =>
    rw [List.nil_append, balanceSum_cons]
    by_cases h : t.walletId = wid <;> simp [balanceSum, h]
  | cons a ts ih =>
    rw [List.cons_append, balanceSum_cons, balanceSum_cons, ih]
    ring

theorem balanceSum_filter_ne_pk {ts : List Transaction} {t : Transaction} {wid : Nat}
    (hnd : (ts.map Transaction.pk).Nodup) (hmem : t ∈ ts) :
    balanceSum (ts.filter (fun o => o.pk != t.pk)) wid
      = balanceSum ts wid - (if t.walletId == wid then t.amount else 0) := by
  induction ts with
  | nil => cases hmem
  | cons a ts ih =>
    have hnd' : (ts.map Transaction.pk).Nodup := (List.nodup_cons.mp hnd).2
    have hnotmem : a.pk ∉ ts.map Transaction.pk := (List.nodup_cons.mp hnd).1
    rcases List.mem_cons.mp hmem with rfl | hmem'
    · have hall : ts.filter (fun o => o.pk != t.pk) = ts := by
        refine List.filter_eq_self.mpr (fun o ho => ?_)
        have : o.pk ≠ t.pk := fun he => hnotmem (he ▸ List.mem_map_of_mem Transaction.pk ho)
        simpa using this
      rw [List.filter_cons, balanceSum_cons]
      simp only [bne_self_eq_false]
      rw [hall]
      ring_nf
      simp
    · have hne : (a.pk != t.pk) = true := by
        have : a.pk ≠ t.pk := fun he =>
          hnotmem (by rw [he]; exact List.mem_map_of_mem Transaction.pk hmem')
        simpa using this
      rw [List.filter_cons, if_pos hne, balanceSum_cons, balanceSum_cons, ih hnd' hmem']
      ring

/-! ### Destructuring the operations -/

theorem full_clean_ok {s : DBState} {pk? : Option Nat} {wid : Nat} {txid : String} {a : Int}
    (h : Transaction.full_clean s pk? wid txid a = .ok ()) :
    Transaction.clean s pk? wid a = .ok ()
      ∧ Transaction.validateUnique s pk? txid = .ok () := by
  unfold Transaction.full_clean at h
  cases hc : Transaction.clean s pk? wid a with
  | error e => rw [hc] at h; exact absurd h (by simp [Bind.bind, Except.bind])
  | ok u =>
    cases u
    rw [hc] at h
    exact ⟨rfl, h⟩

theorem clean_create_ok {s : DBState} {wid : Nat} {a : Int}
    (h : Transaction.clean s none wid a = .ok ()) :
    ∃ w, findWallet s wid = some w ∧ 0 ≤ w.balance + a := by
  unfold Transaction.clean at h
  split at h
  · exact absurd h (by simp)
  · next w hw =>
    split at h
    next =>
      split at h
      · exact absurd h (by simp)
      · exact ⟨w, hw, by omega⟩
    next pk2 heq => cases heq

theorem clean_update_ok {s : DBState} {pk wid : Nat} {a : Int}
    (h : Transaction.clean s (some pk) wid a = .ok ()) :
    ∃ w old, findWallet s wid = some w ∧ findTransaction s pk = some old
      ∧ 0 ≤ w.balance + (a - old.amount) := by
  unfold Transaction.clean at h
  split at h
  · exact absurd h (by simp)
  · next w hw =>
    split at h
    next heq => cases heq
    next pk2 heq =>
      injection heq with heq2
      subst heq2
      split at h
      · exact absurd h (by simp)
      · next old ho =>
        split at h
        · exact absurd h (by simp)
        · exact ⟨w, old, hw, ho, by omega⟩

theorem save_create_ok {s : DBState} {wid : Nat} {txid : String} {a : Int} {s' : DBState}
    (h : Transaction.save s none wid txid a = .ok s') :
    Transaction.full_clean s none wid txid a = .ok ()
      ∧ s' = ({ s with transactions := s.transactions ++ [⟨s.nextTransactionPk, wid, txid, a⟩] } : DBState).updateWalletBalance wid a := by
  unfold Transaction.save at h
  cases hfc : Transaction.full_clean s none wid txid a with
  | error e => rw [hfc] at h; exact absurd h (by simp [Bind.bind, Except.bind])
  | ok u =>
    cases u
    rw [hfc] at h
    exact ⟨rfl, (Except.ok.inj h).symm⟩

theorem save_update_ok {s : DBState} {pk wid : Nat} {txid : String} {a : Int} {s' : DBState}
    (h : Transaction.save s (some pk) wid txid a = .ok s') :
    Transaction.full_clean s (some pk) wid txid a = .ok ()
      ∧ s' = { s with transactions := s.transactions.map (fun o => if o.pk == pk then (⟨pk, wid, txid, a⟩ : Transaction) else o) } := by
  unfold Transaction.save at h
  cases hfc : Transaction.full_clean s (some pk) wid txid a with
  | error e => rw [hfc] at h; exact absurd h (by simp [Bind.bind, Except.bind])
  | ok u =>
    cases u
    rw [hfc] at h
    exact ⟨rfl, (Except.ok.inj h).symm⟩

theorem serializerCreate_ok {s : DBState} {wid : Nat} {txid : String} {a : Int} {s' : DBState}
    (h : TransactionSerializer.create s wid txid a = .ok s') :
    Transaction.full_clean s none wid txid a = .ok ()
      ∧ s' = ({ s with transactions := s.transactions ++ [⟨s.nextTransactionPk, wid, txid, a⟩] } : DBState).updateWalletBalance wid a := by
  unfold TransactionSerializer.create at h
  cases hfc : Transaction.full_clean s none wid txid a with
  | error e => rw [hfc] at h; exact absurd h (by simp [Bind.bind, Except.bind])
  | ok u =>
    cases u
    rw [hfc] at h
    exact ⟨rfl, (save_create_ok h).2⟩

theorem serializerUpdate_ok {s : DBState} {inst : Transaction} {a : Int} {s' : DBState}
    (h : TransactionSerializer.update s inst a = .ok s') :
    Transaction.full_clean s (some inst.pk) inst.walletId inst.txid a = .ok ()
      ∧ s' = { s with transactions := s.transactions.map (fun o => if o.pk == inst.pk then (⟨inst.pk, inst.walletId, inst.txid, a⟩ : Transaction) else o) } := by
  unfold TransactionSerializer.update at h
  cases hfc : Transaction.full_clean s (some inst.pk) inst.walletId inst.txid a with
  | error e => rw [hfc] at h; exact absurd h (by simp [Bind.bind, Except.bind])
  | ok u =>
    cases u
    rw [hfc] at h
    exact ⟨rfl, (save_update_ok h).2⟩

theorem transactionDelete_ok {s : DBState} {t : Transaction} {s' : DBState}
    (h : Transaction.delete s t = .ok s') :
    ∃ w, findWallet s t.walletId = some w ∧ 0 ≤ w.balance - t.amount
      ∧ s' = ({ s with transactions := s.transactions.filter (fun o => o.pk != t.pk) } : DBState).updateWalletBalance t.walletId (-t.amount) := by
  unfold Transaction.delete at h
  split at h
  · exact absurd h (by simp)
  · next w hw =>
    split at h
    · exact absurd h (by simp)
    · next hlt => exact ⟨w, hw, by omega, (Except.ok.inj h).symm⟩

theorem performCreateTransaction_ok {s : DBState} {wid : Nat} {txid : String}
    {d : DecimalValue} {s' : DBState}
    (h : performCreateTransaction s wid txid d = (.ok (), s')) :
    TransactionSerializer.run_validation s none wid txid d = []
      ∧ TransactionSerializer.create s wid txid d.toScaled = .ok s' := by
  unfold performCreateTransaction at h
  by_cases he : (TransactionSerializer.run_validation s none wid txid d).isEmpty
  · rw [if_pos he] at h
    refine ⟨List.isEmpty_iff.mp he, ?_⟩
    cases hc : TransactionSerializer.create s wid txid d.toScaled with
    | ok s2 =>
      rw [hc] at h
      simp only [Prod.mk.injEq] at h
      rw [h.2]
    | error e => rw [hc] at h; simp at h
  · rw [if_neg he] at h
    simp at h

theorem performDestroyTransaction_ok {s : DBState} {pk : Nat} {s' : DBState}
    (h : performDestroyTransaction s pk = (.ok (), s')) :
    ∃ t, findTransaction s pk = some t ∧ Transaction.delete s t = .ok s' := by
  unfold performDestroyTransaction at h
  split at h
  · simp at h
  · next t ht =>
    refine ⟨t, ht, ?_⟩
    split at h
    · next s2 hd =>
      simp only [Prod.mk.injEq] at h
      rw [hd, h.2]
    · simp at h

theorem performUpdateTransactionAmount_ok {s : DBState} {pk : Nat} {d : DecimalValue}
    {s' : DBState}
    (h : performUpdateTransactionAmount s pk d = (.ok (), s')) :
    ∃ inst, findTransaction s pk = some inst
      ∧ TransactionSerializer.update s inst d.toScaled = .ok s' := by
  unfold performUpdateTransactionAmount at h
  split at h
  · simp at h
  · next inst ht =>
    refine ⟨inst, ht, ?_⟩
    by_cases he : (TransactionSerializer.run_validation_update s inst d).isEmpty
    · rw [if_pos he] at h
      cases hc : TransactionSerializer.update s inst d.toScaled with
      | ok s2 =>
        rw [hc] at h
        simp only [Prod.mk.injEq] at h
        rw [h.2]
      | error e => rw [hc] at h; simp at h
    · rw [if_neg he] at h
      simp at h

theorem performCreateWallet_ok {s : DBState} {label : String} {s' : DBState}
    (h : performCreateWallet s label = (.ok (), s')) :
    s' = { s with wallets := s.wallets ++ [⟨s.nextWalletPk, label, 0⟩] } := by
  unfold performCreateWallet at h
  split at h
  · simp at h
  · simp only [Prod.mk.injEq] at h
    exact h.2.symm

theorem performUpdateWalletLabel_ok {s : DBState} {pk : Nat} {label : String} {s' : DBState}
    (h : performUpdateWalletLabel s pk label = (.ok (), s')) :
    ∃ w, findWallet s pk = some w
      ∧ s' = { s with wallets := s.wallets.map (fun o => if o.pk == pk then { w with label := label } else o) } := by
  unfold performUpdateWalletLabel at h
  split at h
  · simp at h
  · next w hw =>
    split at h
    · simp at h
    · simp only [Prod.mk.injEq] at h
      exact ⟨w, hw, h.2.symm⟩

theorem performDestroyWallet_ok {s : DBState} {pk : Nat} {s' : DBState}
    (h : performDestroyWallet s pk = (.ok (), s')) :
    s' = { wallets := s.wallets.filter (fun w => w.pk != pk),
           transactions := s.transactions.filter (fun t => t.walletId != pk) } := by
  unfold performDestroyWallet at h
  split at h
  · simp at h
  · simp only [Prod.mk.injEq] at h
    exact h.2.symm

/-! ### Invariant preservation -/

theorem consistent_after_create {s : DBState} {wid : Nat} {txid : String} {d : DecimalValue}
    {s' : DBState} (hc : Consistent s)
    (h : performCreateTransaction s wid txid d = (.ok (), s')) : Consistent s' := by
  obtain ⟨-, hcr⟩ := performCreateTransaction_ok h
  obtain ⟨-, hs'⟩ := serializerCreate_ok hcr
  subst hs'
  intro w' hw'
  obtain ⟨w, hw, he⟩ := mem_updateWalletBalance hw'
  have htx : (({ s with transactions := s.transactions ++ [⟨s.nextTransactionPk, wid, txid, d.toScaled⟩] } : DBState).updateWalletBalance wid d.toScaled).transactions = s.transactions ++ [⟨s.nextTransactionPk, wid, txid, d.toScaled⟩] := rfl
  rw [htx, balanceSum_append]
  by_cases hpk : w.pk = wid
  · rw [if_pos (by simpa using hpk)] at he
    subst he
    simp only [hpk, beq_self_eq_true, if_pos]
    rw [hc w hw]
    simp [hpk]
  · rw [if_neg (by simpa using hpk)] at he
    rw [he, hc w hw]
    have : (wid == w.pk) = false := by simpa using fun he => hpk he.symm
    simp [this]

theorem consistent_after_destroy {s : DBState} {pk : Nat} {s' : DBState}
    (hc : Consistent s) (hnd : (s.transactions.map Transaction.pk).Nodup)
    (h : performDestroyTransaction s pk = (.ok (), s')) : Consistent s' := by
  obtain ⟨t, ht, hd⟩ := performDestroyTransaction_ok h
  obtain ⟨w, hw, hge, hs'⟩ := transactionDelete_ok hd
  subst hs'
  have htmem : t ∈ s.transactions := List.mem_of_find?_eq_some ht
  intro w' hw'
  obtain ⟨w1, hw1, he⟩ := mem_updateWalletBalance hw'
  have htx : (({ s with transactions := s.transactions.filter (fun o => o.pk != t.pk) } : DBState).updateWalletBalance t.walletId (-t.amount)).transactions = s.transactions.filter (fun o => o.pk != t.pk) := rfl
  rw [htx, balanceSum_filter_ne_pk hnd htmem]
  by_cases hpk : w1.pk = t.walletId
  · rw [if_pos (by simpa using hpk)] at he
    subst he
    simp only [hpk]
    rw [hc w1 hw1]
    simp [hpk]
    ring
  · rw [if_neg (by simpa using hpk)] at he
    rw [he, hc w1 hw1]
    have : (t.walletId == w1.pk) = false := by simpa using fun he => hpk he.symm
    simp [this]

theorem wallets_unchanged_after_update {s : DBState} {pk : Nat} {d : DecimalValue}
    {s' : DBState} (h : performUpdateTransactionAmount s pk d = (.ok (), s')) :
    s'.wallets = s.wallets := by
  obtain ⟨inst, -, hu⟩ := performUpdateTransactionAmount_ok h
  obtain ⟨-, hs'⟩ := serializerUpdate_ok hu
  rw [hs']

theorem nonneg_after_create {s : DBState} {wid : Nat} {txid : String} {d : DecimalValue}
    {s' : DBState} (hnn : NonNegative s) (hwnd : (s.wallets.map Wallet.pk).Nodup)
    (h : performCreateTransaction s wid txid d = (.ok (), s')) : NonNegative s' := by
  obtain ⟨-, hcr⟩ := performCreateTransaction_ok h
  obtain ⟨hfc, hs'⟩ := serializerCreate_ok hcr
  obtain ⟨hcl, -⟩ := full_clean_ok hfc
  obtain ⟨w0, hw0, hge⟩ := clean_create_ok hcl
  subst hs'
  intro w' hw'
  obtain ⟨w, hw, he⟩ := mem_updateWalletBalance hw'
  by_cases hpk : w.pk = wid
  · rw [if_pos (by simpa using hpk)] at he
    subst he
    have h1 := findWallet_eq_of_mem hwnd hw hpk
    rw [hw0] at h1
    obtain rfl := Option.some.inj h1
    simpa using hge
  · rw [if_neg (by simpa using hpk)] at he
    rw [he]
    exact hnn w hw

theorem nonneg_after_destroy {s : DBState} {pk : Nat} {s' : DBState}
    (hnn : NonNegative s) (hwnd : (s.wallets.map Wallet.pk).Nodup)
    (h : performDestroyTransaction s pk = (.ok (), s')) : NonNegative s' := by
  obtain ⟨t, ht, hd⟩ := performDestroyTransaction_ok h
  obtain ⟨w0, hw0, hge, hs'⟩ := transactionDelete_ok hd
  subst hs'
  intro w' hw'
  obtain ⟨w, hw, he⟩ := mem_updateWalletBalance hw'
  by_cases hpk : w.pk = t.walletId
  · rw [if_pos (by simpa using hpk)] at he
    subst he
    have h1 := findWallet_eq_of_mem hwnd hw hpk
    rw [hw0] at h1
    obtain rfl := Option.some.inj h1
    simpa using hge
  · rw [if_neg (by simpa using hpk)] at he
    rw [he]
    exact hnn w hw

theorem nonneg_after_update {s : DBState} {pk : Nat} {d : DecimalValue} {s' : DBState}
    (hnn : NonNegative s) (h : performUpdateTransactionAmount s pk d = (.ok (), s')) :
    NonNegative s' := by
  intro w' hw'
  rw [wallets_unchanged_after_update h] at hw'
  exact hnn w' hw'

theorem nonneg_after_createWallet {s : DBState} {label : String} {s' : DBState}
    (hnn : NonNegative s) (h : performCreateWallet s label = (.ok (), s')) :
    NonNegative s' := by
  rw [performCreateWallet_ok h]
  intro w' hw'
  rcases List.mem_append.mp hw' with hm | hm
  · exact hnn w' hm
  · simp at hm
    rw [hm]

theorem nonneg_after_updateWalletLabel {s : DBState} {pk : Nat} {label : String} {s' : DBState}
    (hnn : NonNegative s) (h : performUpdateWalletLabel s pk label = (.ok (), s')) :
    NonNegative s' := by
  obtain ⟨w, hw, hs'⟩ := performUpdateWalletLabel_ok h
  rw [hs']
  intro w' hw'
  rcases List.mem_map.mp hw' with ⟨o, ho, he⟩
  by_cases hpk : o.pk = pk
  · rw [if_pos (by simpa using hpk)] at he
    rw [← he]
    exact hnn w (List.mem_of_find?_eq_some hw)
  · rw [if_neg (by simpa using hpk)] at he
    rw [← he]
    exact hnn o ho

theorem nonneg_after_destroyWallet {s : DBState} {pk : Nat} {s' : DBState}
    (hnn : NonNegative s) (h : performDestroyWallet s pk = (.ok (), s')) :
    NonNegative s' := by
  rw [performDestroyWallet_ok h]
  intro w' hw'
  exact hnn w' (List.mem_of_mem_filter hw')

/-! ### Error paths roll the state back -/

theorem createTransaction_error_rollback {s : DBState} {wid : Nat} {txid : String}
    {d : DecimalValue} {errs : List ApiError} {r : DBState}
    (h : performCreateTransaction s wid txid d = (.error errs, r)) : r = s := by
  unfold performCreateTransaction at h
  by_cases he : (TransactionSerializer.run_validation s none wid txid d).isEmpty
  · rw [if_pos he] at h
    cases hc : TransactionSerializer.create s wid txid d.toScaled with
    | ok s2 => rw [hc] at h; simp at h
    | error e =>
      rw [hc] at h
      simp only [Prod.mk.injEq] at h
      exact h.2.symm
  · rw [if_neg he] at h
    simp only [Prod.mk.injEq] at h
    exact h.2.symm

theorem updateTransaction_error_rollback {s : DBState} {pk : Nat} {d : DecimalValue}
    {errs : List ApiError} {r : DBState}
    (h : performUpdateTransactionAmount s pk d = (.error errs, r)) : r = s := by
  unfold performUpdateTransactionAmount at h
  split at h
  · simp only [Prod.mk.injEq] at h
    exact h.2.symm
  · next inst ht =>
    by_cases he : (TransactionSerializer.run_validation_update s inst d).isEmpty
    · rw [if_pos he] at h
      cases hc : TransactionSerializer.update s inst d.toScaled with
      | ok s2 => rw [hc] at h; simp at h
      | error e =>
        rw [hc] at h
        simp only [Prod.mk.injEq] at h
        exact h.2.symm
    · rw [if_neg he] at h
      simp only [Prod.mk.injEq] at h
      exact h.2.symm

theorem destroyTransaction_error_rollback {s : DBState} {pk : Nat}
    {errs : List ApiError} {r : DBState}
    (h : performDestroyTransaction s pk = (.error errs, r)) : r = s := by
  unfold performDestroyTransaction at h
  split at h
  · simp only [Prod.mk.injEq] at h
    exact h.2.symm
  · next t ht =>
    split at h
    · simp at h
    · simp only [Prod.mk.injEq] at h
      exact h.2.symm

/-! ### Duplicate txids and uniqueness -/

theorem validate_txid_create_eq (s : DBState) (txid : String) :
    TransactionSerializer.validate_txid s none txid
      = if txidExists s txid then .error .duplicateTxid else .ok txid := by
  simp [TransactionSerializer.validate_txid]

theorem createTransaction_duplicate_txid {s : DBState} {wid : Nat} {txid : String}
    {d : DecimalValue} (h : txidExists s txid = true) :
    ∃ errs, performCreateTransaction s wid txid d = (.error errs, s)
      ∧ ApiError.duplicateTxid ∈ errs := by
  have hv : TransactionSerializer.validate_txid s none txid = .error .duplicateTxid := by
    rw [validate_txid_create_eq, if_pos h]
  have hrv : TransactionSerializer.run_validation s none wid txid d
      = ((match findWallet s wid with
          | none => [ApiError.walletNotFound]
          | some _ => [])
        ++ (match TransactionSerializer.validate_amount d with
            | .error e => [e]
            | .ok _ => []))
        ++ [ApiError.duplicateTxid] := by
    unfold TransactionSerializer.run_validation
    rw [hv]
  refine ⟨((match findWallet s wid with
            | none => [ApiError.walletNotFound]
            | some _ => [])
          ++ (match TransactionSerializer.validate_amount d with
              | .error e => [e]
              | .ok _ => []))
          ++ [ApiError.duplicateTxid], ?_, by simp⟩
  unfold performCreateTransaction
  rw [hrv, if_neg (by simp)]

theorem txid_not_stored_of_create_ok {s : DBState} {wid : Nat} {txid : String}
    {d : DecimalValue} {s' : DBState}
    (h : performCreateTransaction s wid txid d = (.ok (), s')) :
    txidExists s txid = false := by
  obtain ⟨hrv, -⟩ := performCreateTransaction_ok h
  have hC : (match TransactionSerializer.validate_txid s none txid with
      | .error e => [e]
      | .ok _ => ([] : List ApiError)) = [] := by
    rcases List.append_eq_nil.mp hrv with ⟨-, h2⟩
    exact h2
  by_cases hx : txidExists s txid
  · rw [validate_txid_create_eq, if_pos hx] at hC
    simp at hC
  · simpa using hx

theorem uniqueTxids_after_create {s : DBState} {wid : Nat} {txid : String}
    {d : DecimalValue} {s' : DBState} (hu : UniqueTxids s)
    (h : performCreateTransaction s wid txid d = (.ok (), s')) : UniqueTxids s' := by
  have hex := txid_not_stored_of_create_ok h
  obtain ⟨-, hcr⟩ := performCreateTransaction_ok h
  obtain ⟨-, hs'⟩ := serializerCreate_ok hcr
  subst hs'
  unfold UniqueTxids at hu ⊢
  have htx : (({ s with transactions := s.transactions ++ [⟨s.nextTransactionPk, wid, txid, d.toScaled⟩] } : DBState).updateWalletBalance wid d.toScaled).transactions = s.transactions ++ [⟨s.nextTransactionPk, wid, txid, d.toScaled⟩] := rfl
  rw [htx, List.map_append]
  rw [List.nodup_append]
  refine ⟨hu, by simp, ?_⟩
  intro x hx hx'
  simp only [List.map_cons, List.map_nil, List.mem_singleton] at hx'
  obtain ⟨t, ht, hxt⟩ := List.mem_map.mp hx
  have hf : s.transactions.any (fun o => o.txid == txid) = false := hex
  rw [List.any_eq_false] at hf
  exact hf t ht (by rw [hxt, hx']; simp)

/-! ### Decimal precision and exact storage -/

theorem toScaled_exact {d : DecimalValue} (h : -18 ≤ d.exponent) :
    ((d.toScaled : ℚ)) * (10 : ℚ) ^ (-18 : ℤ) = d.value := by
  unfold DecimalValue.toScaled DecimalValue.value
  push_cast
  rw [mul_assoc]
  congr 1
  rw [show ((10 : ℚ) ^ (d.exponent + 18).toNat) = (10 : ℚ) ^ (d.exponent + 18) from by
    rw [← zpow_natCast, Int.toNat_of_nonneg (by omega)]]
  rw [← zpow_add₀ (by norm_num : (10 : ℚ) ≠ 0)]
  congr 1
  omega

theorem validate_amount_error_iff (d : DecimalValue) :
    TransactionSerializer.validate_amount d = .error .precisionExceeded
      ↔ 18 < d.fracDigits := by
  unfold TransactionSerializer.validate_amount DecimalValue.fracDigits
  constructor
  · intro h
    by_cases hlt : d.exponent < -18
    · omega
    · rw [if_neg hlt] at h; exact absurd h (by simp)
  · intro h
    rw [if_pos (by omega)]

theorem createTransaction_precision_reject {s : DBState} {wid : Nat} {txid : String}
    {d : DecimalValue} (h : 18 < d.fracDigits) :
    ∃ errs, performCreateTransaction s wid txid d = (.error errs, s)
      ∧ ApiError.precisionExceeded ∈ errs := by
  have hv := validate_amount_error_iff d |>.mpr h
  have hrv : TransactionSerializer.run_validation s none wid txid d
      = ((match findWallet s wid with
          | none => [ApiError.walletNotFound]
          | some _ => [])
        ++ [ApiError.precisionExceeded])
        ++ (match TransactionSerializer.validate_txid s none txid with
            | .error e => [e]
            | .ok _ => []) := by
    unfold TransactionSerializer.run_validation
    rw [hv]
  refine ⟨((match findWallet s wid with
            | none => [ApiError.walletNotFound]
            | some _ => [])
          ++ [ApiError.precisionExceeded])
          ++ (match TransactionSerializer.validate_txid s none txid with
              | .error e => [e]
              | .ok _ => []), ?_, by simp⟩
  unfold performCreateTransaction
  rw [hrv, if_neg (by simp)]

/-! ### The per-wallet row lock under concurrency

`Transaction.clean` reads the balance through
`Wallet.objects.select_for_update()`, and the surrounding
`transaction.atomic` block of the viewset keeps that row lock until the
signal has applied the balance delta.  The machine below models two
concurrent create requests against one wallet: a request acquires the
lock and reads the balance, validates against the read value, and on
success applies `F(balance) + amount` to the then-current balance
before releasing the lock. -/

inductive Phase where
  | ready
  | locked (readBal : Int)
  | finished (ok : Bool)
deriving DecidableEq, Repr

structure Sched where
  bal : Int
  lock : Option (Fin 2)
  ph : Fin 2 → Phase

inductive LStep (a : Fin 2 → Int) : Sched → Sched → Prop where
  | acquire (st : Sched) (i : Fin 2) (h1 : st.ph i = Phase.ready) (h2 : st.lock = none) :
      LStep a st { st with lock := some i, ph := Function.update st.ph i (Phase.locked st.bal) }
  | reject (st : Sched) (i : Fin 2) (b : Int) (h1 : st.ph i = Phase.locked b)
      (h2 : st.lock = some i) (h3 : b + a i < 0) :
      LStep a st { st with lock := none, ph := Function.update st.ph i (Phase.finished false) }
  | commit (st : Sched) (i : Fin 2) (b : Int) (h1 : st.ph i = Phase.locked b)
      (h2 : st.lock = some i) (h3 : 0 ≤ b + a i) :
      LStep a st { st with bal := st.bal + a i, lock := none, ph := Function.update st.ph i (Phase.finished true) }

def initSched (B : Int) : Sched :=
  { bal := B, lock := none, ph := fun _ => Phase.ready }

inductive ReachSched (a : Fin 2 → Int) (B : Int) : Sched → Prop where
  | init : ReachSched a B (initSched B)
  | step (st st' : Sched) : ReachSched a B st → LStep a st st' → ReachSched a B st'

/-- Contribution of request `i` to the balance: its amount once it has
committed, zero otherwise. -/
def contrib (a : Fin 2 → Int) (st : Sched) (i : Fin 2) : Int :=
  match st.ph i with
  | Phase.finished true => a i
  | _ => 0

def SchedInv (a : Fin 2 → Int) (B : Int) (st : Sched) : Prop :=
  st.bal = B + contrib a st 0 + contrib a st 1
  ∧ (0 ≤ B → 0 ≤ st.bal)
  ∧ ∀ i b, st.ph i = Phase.locked b → st.lock = some i ∧ b = st.bal

theorem schedInv_init (a : Fin 2 → Int) (B : Int) : SchedInv a B (initSched B) := by
  refine ⟨by simp [initSched, contrib], fun h => h, fun i b hb => ?_⟩
  simp [initSched] at hb

theorem fin_two_cases (i : Fin 2) : i = 0 ∨ i = 1 := by
  have hv : (i : Nat) = 0 ∨ (i : Nat) = 1 := by omega
  rcases hv with h | h
  · exact Or.inl (Fin.ext h)
  · exact Or.inr (Fin.ext h)

theorem schedInv_step {a : Fin 2 → Int} {B : Int} {st st' : Sched}
    (hi : SchedInv a B st) (hs : LStep a st st') : SchedInv a B st' := by
  obtain ⟨hsum, hnn, hlk⟩ := hi
  cases hs with
  | acquire i h1 h2 =>
    have hcon : ∀ j, contrib a { st with lock := some i, ph := Function.update st.ph i (Phase.locked st.bal) } j = contrib a st j := by
      intro j
      by_cases hj : j = i
      · subst hj; simp [contrib, Function.update_same, h1]
      · simp [contrib, Function.update_noteq hj]
    refine ⟨by rw [hcon 0, hcon 1]; exact hsum, hnn, fun j b hb => ?_⟩
    by_cases hj : j = i
    · subst hj
      simp only [Function.update_same] at hb
      cases hb
      exact ⟨rfl, rfl⟩
    · simp only [Function.update_noteq hj] at hb
      have hsome := (hlk j b hb).1
      rw [h2] at hsome
      cases hsome
  | reject i b h1 h2 h3 =>
    have hcon : ∀ j, contrib a { st with lock := none, ph := Function.update st.ph i (Phase.finished false) } j = contrib a st j := by
      intro j
      by_cases hj : j = i
      · subst hj; simp [contrib, Function.update_same, h1]
      · simp [contrib, Function.update_noteq hj]
    refine ⟨by rw [hcon 0, hcon 1]; exact hsum, hnn, fun j b' hb => ?_⟩
    by_cases hj : j = i
    · subst hj
      simp only [Function.update_same] at hb
      cases hb
    · simp only [Function.update_noteq hj] at hb
      have hj2 := (hlk j b' hb).1
      rw [h2] at hj2
      exact absurd (Option.some.inj hj2).symm hj
  | commit i b h1 h2 h3 =>
    obtain ⟨-, hbal⟩ := hlk i b h1
    subst hbal
    have hcon : ∀ j, j ≠ i → contrib a { st with bal := st.bal + a i, lock := none, ph := Function.update st.ph i (Phase.finished true) } j = contrib a st j := by
      intro j hj
      simp [contrib, Function.update_noteq hj]
    have hconi : contrib a { st with bal := st.bal + a i, lock := none, ph := Function.update st.ph i (Phase.finished true) } i = a i := by
      simp [contrib, Function.update_same]
    have hzero : contrib a st i = 0 := by
      simp [contrib, h1]
    refine ⟨?_, fun _ => h3, fun j b' hb => ?_⟩
    · show st.bal + a i = B + _ + _
      rcases fin_two_cases i with rfl | rfl
      · rw [hconi, hcon 1 (by decide)]
        rw [hsum]
        rw [show contrib a st 0 = 0 from hzero]
        ring
      · rw [hconi, hcon 0 (by decide)]
        rw [hsum]
        rw [show contrib a st 1 = 0 from hzero]
        ring
    · by_cases hj : j = i
      · subst hj
        simp only [Function.update_same] at hb
        cases hb
      · simp only [Function.update_noteq hj] at hb
        have hj2 := (hlk j b' hb).1
        rw [h2] at hj2
        exact absurd (Option.some.inj hj2).symm hj

theorem reach_schedInv {a : Fin 2 → Int} {B : Int} {st : Sched}
    (h : ReachSched a B st) : SchedInv a B st := by
  induction h with
  | init => exact schedInv_init a B
  | step st st' hr hs ih => exact schedInv_step ih hs

/-! ### Sample states -/

def sampleState : DBState :=
  { wallets := [{ pk := 1, label := "ops", balance := 10 }],
    transactions := [{ pk := 1, walletId := 1, txid := "t0", amount := 10 }] }

def sampleCreated : DBState :=
  { wallets := [{ pk := 1, label := "ops", balance := 15 }],
    transactions := [{ pk := 1, walletId := 1, txid := "t0", amount := 10 },
                     { pk := 2, walletId := 1, txid := "t1", amount := 5 }] }

/-! ### The claims -/

/-- Claim C1, counterexample: the stored-balance-equals-sum invariant
fails after a committed amount update.  From a consistent state (one
wallet at balance ten backed by one transaction of amount ten), editing
the transaction amount to five commits, yet the post-save receiver
skips non-create saves, so the balance stays ten while the sum becomes
five. -/
theorem claim_C1_counterexample :
    Consistent sampleState
    ∧ (performUpdateTransactionAmount sampleState 1 ⟨5, -18⟩).1 = .ok ()
    ∧ ¬ Consistent (performUpdateTransactionAmount sampleState 1 ⟨5, -18⟩).2 :=
  ⟨by decide, rfl, by decide⟩

/-- Claim C1, amended: after a committed transaction create or delete
the balance of every wallet equals the sum of the amounts of its
transactions (creates need no extra hypothesis; deletes need distinct
row keys); a committed amount update leaves the wallet table — and so
every stored balance — unchanged, so the invariant survives an update
only when the new amount equals the old one. -/
theorem claim_C1_amended (s : DBState) (hc : Consistent s)
    (hnd : (s.transactions.map Transaction.pk).Nodup) :
    (∀ wid txid d s', performCreateTransaction s wid txid d = (.ok (), s') → Consistent s')
    ∧ (∀ pk s', performDestroyTransaction s pk = (.ok (), s') → Consistent s')
    ∧ (∀ pk d s', performUpdateTransactionAmount s pk d = (.ok (), s') →
        s'.wallets = s.wallets) :=
  ⟨fun _ _ _ _ h => consistent_after_create hc h,
   fun _ _ h => consistent_after_destroy hc hnd h,
   fun _ _ _ h => wallets_unchanged_after_update h⟩

theorem claim_C1_witness : Consistent sampleCreated :=
  (claim_C1_amended sampleState (by decide) (by decide)).1 1 "t1" ⟨5, -18⟩ sampleCreated (by rfl)

/-- Claim C2: no committed operation — transaction create, amount
update or delete, nor any wallet operation — leaves any wallet balance
strictly below zero, starting from a state with non-negative balances
and distinct wallet keys. -/
theorem claim_C2 (s : DBState) (hnd : (s.wallets.map Wallet.pk).Nodup)
    (hnn : NonNegative s) :
    (∀ wid txid d s', performCreateTransaction s wid txid d = (.ok (), s') → NonNegative s')
    ∧ (∀ pk d s', performUpdateTransactionAmount s pk d = (.ok (), s') → NonNegative s')
    ∧ (∀ pk s', performDestroyTransaction s pk = (.ok (), s') → NonNegative s')
    ∧ (∀ label s', performCreateWallet s label = (.ok (), s') → NonNegative s')
    ∧ (∀ pk label s', performUpdateWalletLabel s pk label = (.ok (), s') → NonNegative s')
    ∧ (∀ pk s', performDestroyWallet s pk = (.ok (), s') → NonNegative s') :=
  ⟨fun _ _ _ _ h => nonneg_after_create hnn hnd h,
   fun _ _ _ h => nonneg_after_update hnn h,
   fun _ _ h => nonneg_after_destroy hnn hnd h,
   fun _ _ h => nonneg_after_createWallet hnn h,
   fun _ _ _ h => nonneg_after_updateWalletLabel hnn h,
   fun _ _ h => nonneg_after_destroyWallet hnn h⟩

theorem claim_C2_witness : NonNegative sampleCreated :=
  (claim_C2 sampleState (by decide) (by decide)).1 1 "t1" ⟨5, -18⟩ sampleCreated (by rfl)

/-- Claim C3, counterexample: an amount update that passes precision
and balance validation commits, but the owning wallet balance is not
changed by `new_amount - old_amount`: editing the amount from ten to
four leaves the stored balance at ten, where the claim predicts four. -/
theorem claim_C3_counterexample :
    (performUpdateTransactionAmount sampleState 1 ⟨4, -18⟩).1 = .ok ()
    ∧ findWallet (performUpdateTransactionAmount sampleState 1 ⟨4, -18⟩).2 1
        = some ⟨1, "ops", 10⟩
    ∧ (10 : Int) ≠ 10 + (4 - 10) :=
  ⟨rfl, by rfl, by decide⟩

/-- Claim C3, amended: a validated amount update rewrites the
transaction record to the new amount but leaves the wallet table — and
so the stored balance — unchanged; the API layer exposes no update at
all, since `put` and `patch` are excluded from the accepted method
names. -/
theorem claim_C3_amended (s : DBState) (pk : Nat) (inst : Transaction) (d : DecimalValue)
    (s' : DBState) (ht : findTransaction s pk = some inst)
    (h : performUpdateTransactionAmount s pk d = (.ok (), s')) :
    s'.wallets = s.wallets
    ∧ findTransaction s' pk = some ⟨inst.pk, inst.walletId, inst.txid, d.toScaled⟩
    ∧ "put" ∉ TransactionViewSet.http_method_names
    ∧ "patch" ∉ TransactionViewSet.http_method_names := by
  obtain ⟨inst2, ht2, hu⟩ := performUpdateTransactionAmount_ok h
  rw [ht] at ht2
  obtain rfl := Option.some.inj ht2
  obtain ⟨-, hs'⟩ := serializerUpdate_ok hu
  subst hs'
  refine ⟨rfl, ?_, by decide, by decide⟩
  have hpk : inst.pk = pk := by simpa using List.find?_some ht
  have hf : ∀ o : Transaction, ((((fun o => if o.pk == inst.pk then (⟨inst.pk, inst.walletId, inst.txid, d.toScaled⟩ : Transaction) else o) o).pk == pk) = (o.pk == pk)) := by
    intro o
    by_cases ho : o.pk = inst.pk
    · simp [ho, hpk]
    · simp [ho]
  show (s.transactions.map (fun o => if o.pk == inst.pk then (⟨inst.pk, inst.walletId, inst.txid, d.toScaled⟩ : Transaction) else o)).find? (fun o => o.pk == pk) = some ⟨inst.pk, inst.walletId, inst.txid, d.toScaled⟩
  rw [find?_map_key _ _ hf]
  rw [show s.transactions.find? (fun o => o.pk == pk) = some inst from ht]
  simp

theorem claim_C3_witness :
    (performUpdateTransactionAmount sampleState 1 ⟨7, -18⟩).2.wallets = sampleState.wallets
    ∧ findTransaction (performUpdateTransactionAmount sampleState 1 ⟨7, -18⟩).2 1
        = some ⟨1, 1, "t0", 7⟩
    ∧ "put" ∉ TransactionViewSet.http_method_names
    ∧ "patch" ∉ TransactionViewSet.http_method_names :=
  claim_C3_amended sampleState 1 ⟨1, 1, "t0", 10⟩ ⟨7, -18⟩
    (performUpdateTransactionAmount sampleState 1 ⟨7, -18⟩).2 rfl (by rfl)

/-- Claim C4: for a create on an existing wallet with balance `B`, the
balance validator rejects with the negative-balance error (keyed to
`amount`) exactly when `B + a < 0`, accepts exactly when `0 ≤ B + a`,
and in particular always accepts a zero amount on a wallet with a
non-negative balance. -/
theorem claim_C4 (s : DBState) (wid : Nat) (w : Wallet) (a : Int)
    (hw : findWallet s wid = some w) :
    (Transaction.clean s none wid a = .error (ApiError.negativeBalance "amount")
        ↔ w.balance + a < 0)
    ∧ (Transaction.clean s none wid a = .ok () ↔ 0 ≤ w.balance + a)
    ∧ (0 ≤ w.balance → Transaction.clean s none wid 0 = .ok ()) := by
  have hcl : ∀ b : Int, Transaction.clean s none wid b
      = (if w.balance + b < 0 then .error (.negativeBalance "amount") else .ok ()) := by
    intro b
    unfold Transaction.clean
    rw [hw]
  refine ⟨?_, ?_, fun hnn => ?_⟩
  · rw [hcl a]
    by_cases hlt : w.balance + a < 0
    · simp [hlt]
    · simp [hlt]
  · rw [hcl a]
    by_cases hlt : w.balance + a < 0
    · simp [hlt]
    · simp [hlt]
      omega
  · rw [hcl 0, if_neg (by omega)]

theorem claim_C4_witness :
    Transaction.clean sampleState none 1 0 = .ok () :=
  (claim_C4 sampleState 1 ⟨1, "ops", 10⟩ (-11) (by rfl)).2.2 (by decide)

theorem performDestroy_eq_of_found {s : DBState} {pk : Nat} {t : Transaction}
    (ht : findTransaction s pk = some t) :
    performDestroyTransaction s pk
      = (match Transaction.delete s t with
         | .ok s' => (.ok (), s')
         | .error e => (.error [e], s)) := by
  unfold performDestroyTransaction
  rw [ht]

theorem transactionDelete_reject {s : DBState} {t : Transaction} {w : Wallet}
    (hw : findWallet s t.walletId = some w) (hlt : w.balance - t.amount < 0) :
    Transaction.delete s t = .error (.negativeBalance "non_field_errors") := by
  unfold Transaction.delete
  rw [hw]
  exact if_pos hlt

theorem transactionDelete_accept {s : DBState} {t : Transaction} {w : Wallet}
    (hw : findWallet s t.walletId = some w) (hge : 0 ≤ w.balance - t.amount) :
    Transaction.delete s t = .ok (({ s with transactions := s.transactions.filter (fun o => o.pk != t.pk) } : DBState).updateWalletBalance t.walletId (-t.amount)) := by
  unfold Transaction.delete
  rw [hw]
  exact if_neg (by omega)

/-- Claim C5: deleting a transaction of amount `a` on a wallet with
balance `B` is rejected exactly when `B - a < 0`, with the failure
keyed to `non_field_errors` and the state unchanged; otherwise the row
is removed and the owning wallet balance decreases by exactly `a`. -/
theorem claim_C5 (s : DBState) (pk : Nat) (t : Transaction) (w : Wallet)
    (ht : findTransaction s pk = some t) (hw : findWallet s t.walletId = some w) :
    (w.balance - t.amount < 0 →
      performDestroyTransaction s pk
        = (.error [ApiError.negativeBalance "non_field_errors"], s))
    ∧ (0 ≤ w.balance - t.amount →
      ∃ s', performDestroyTransaction s pk = (.ok (), s')
        ∧ findTransaction s' pk = none
        ∧ findWallet s' t.walletId = some { w with balance := w.balance - t.amount }
        ∧ ∀ o, o ∈ s'.transactions ↔ (o ∈ s.transactions ∧ o.pk ≠ pk)) := by
  have htpk : t.pk = pk := by simpa using List.find?_some ht
  refine ⟨fun hlt => ?_, fun hge => ?_⟩
  · rw [performDestroy_eq_of_found ht, transactionDelete_reject hw hlt]
  · refine ⟨({ s with transactions := s.transactions.filter (fun o => o.pk != t.pk) } : DBState).updateWalletBalance t.walletId (-t.amount), ?_, ?_, ?_, ?_⟩
    · rw [performDestroy_eq_of_found ht, transactionDelete_accept hw hge]
    · show (s.transactions.filter (fun o => o.pk != t.pk)).find? (fun o => o.pk == pk) = none
      rw [List.find?_eq_none]
      intro x hx
      have hne := (List.mem_filter.mp hx).2
      rw [htpk] at hne
      simpa using hne
    · show findWallet (({ s with transactions := s.transactions.filter (fun o => o.pk != t.pk) } : DBState).updateWalletBalance t.walletId (-t.amount)) t.walletId = _
      rw [findWallet_updateWalletBalance]
      rw [show findWallet ({ s with transactions := s.transactions.filter (fun o => o.pk != t.pk) } : DBState) t.walletId = findWallet s t.walletId from rfl]
      rw [hw]
      have hwpk : w.pk = t.walletId := by simpa using List.find?_some hw
      simp [hwpk, sub_eq_add_neg]
    · intro o
      show o ∈ s.transactions.filter (fun o => o.pk != t.pk) ↔ _
      rw [List.mem_filter, htpk]
      simp

theorem claim_C5_witness :
    ∃ s', performDestroyTransaction sampleState 1 = (.ok (), s')
      ∧ findTransaction s' 1 = none
      ∧ findWallet s' 1 = some ⟨1, "ops", 0⟩
      ∧ ∀ o, o ∈ s'.transactions ↔ (o ∈ sampleState.transactions ∧ o.pk ≠ 1) :=
  (claim_C5 sampleState 1 ⟨1, 1, "t0", 10⟩ ⟨1, "ops", 10⟩ (by rfl) (by rfl)).2 (by decide)

/-- Claim C6: whenever the create, amount-update or destroy endpoint
fails with any error, the committed state is exactly the state before
the call — the `transaction.atomic` wrapper leaves no partial effect. -/
theorem claim_C6 (s : DBState) :
    (∀ wid txid d errs r,
        performCreateTransaction s wid txid d = (.error errs, r) → r = s)
    ∧ (∀ pk d errs r,
        performUpdateTransactionAmount s pk d = (.error errs, r) → r = s)
    ∧ (∀ pk errs r,
        performDestroyTransaction s pk = (.error errs, r) → r = s) :=
  ⟨fun _ _ _ _ _ h => createTransaction_error_rollback h,
   fun _ _ _ _ h => updateTransaction_error_rollback h,
   fun _ _ _ h => destroyTransaction_error_rollback h⟩

theorem claim_C6_witness :
    (performCreateTransaction sampleState 1 "t0" ⟨1, -18⟩).2 = sampleState :=
  (claim_C6 sampleState).1 1 "t0" ⟨1, -18⟩ [ApiError.duplicateTxid]
    (performCreateTransaction sampleState 1 "t0" ⟨1, -18⟩).2 (by rfl)

/-- Claim C7: the serializer amount check rejects with
`PrecisionExceeded` exactly the literals with more than eighteen
fractional digits; a literal with at most eighteen is accepted
unchanged and one with exactly eighteen is stored exactly (the scaled
integer denotes the same rational); the check is a pure function of the
literal and rejects in any state, independently of the wallet table. -/
theorem claim_C7 (d : DecimalValue) :
    (TransactionSerializer.validate_amount d = .error ApiError.precisionExceeded
      ↔ 18 < d.fracDigits)
    ∧ (d.fracDigits ≤ 18 → TransactionSerializer.validate_amount d = .ok d)
    ∧ (d.fracDigits = 18 →
        ((d.toScaled : ℚ) * (10 : ℚ) ^ (-18 : ℤ) = d.value))
    ∧ (∀ s wid txid, 18 < d.fracDigits →
        ∃ errs, performCreateTransaction s wid txid d = (.error errs, s)
          ∧ ApiError.precisionExceeded ∈ errs) := by
  refine ⟨validate_amount_error_iff d, fun hle => ?_, fun h18 => ?_, fun s wid txid h => createTransaction_precision_reject h⟩
  · unfold TransactionSerializer.validate_amount
    rw [if_neg ?_]
    unfold DecimalValue.fracDigits at hle
    omega
  · refine toScaled_exact ?_
    unfold DecimalValue.fracDigits at h18
    omega

theorem claim_C7_witness :
    TransactionSerializer.validate_amount ⟨123456789012345678, -18⟩
        = .ok ⟨123456789012345678, -18⟩
    ∧ ((⟨123456789012345678, -18⟩ : DecimalValue).toScaled : ℚ) * (10 : ℚ) ^ (-18 : ℤ)
        = DecimalValue.value ⟨123456789012345678, -18⟩ :=
  ⟨(claim_C7 ⟨123456789012345678, -18⟩).2.1 (by decide),
   (claim_C7 ⟨123456789012345678, -18⟩).2.2.1 (by decide)⟩

/-- Claim C8: a create whose `txid` is already stored is rejected with
`DuplicateTxid` and leaves the state unchanged, and a successful create
preserves pairwise distinctness of the stored txids. -/
theorem claim_C8 (s : DBState) (wid : Nat) (txid : String) (d : DecimalValue) :
    (txidExists s txid = true →
      ∃ errs, performCreateTransaction s wid txid d = (.error errs, s)
        ∧ ApiError.duplicateTxid ∈ errs)
    ∧ (∀ s', UniqueTxids s → performCreateTransaction s wid txid d = (.ok (), s')
        → UniqueTxids s') :=
  ⟨fun h => createTransaction_duplicate_txid h,
   fun _ hu h => uniqueTxids_after_create hu h⟩

theorem claim_C8_witness :
    ∃ errs, performCreateTransaction sampleState 1 "t0" ⟨2, -18⟩
        = (.error errs, sampleState)
      ∧ ApiError.duplicateTxid ∈ errs :=
  (claim_C8 sampleState 1 "t0" ⟨2, -18⟩).1 (by rfl)

/-- Claim C10: `Transaction.save` runs `full_clean` before writing on
every path, so a successful save implies the model validation passed —
in particular, a create that would make the prospective balance
negative on an existing wallet is never persisted: `save` returns the
negative-balance error instead. -/
theorem claim_C10 (s : DBState) (pk? : Option Nat) (wid : Nat) (txid : String) (a : Int) :
    (∀ s', Transaction.save s pk? wid txid a = .ok s' →
        Transaction.full_clean s pk? wid txid a = .ok ())
    ∧ (∀ s', Transaction.save s none wid txid a = .ok s' →
        ∃ w, findWallet s wid = some w ∧ 0 ≤ w.balance + a)
    ∧ (∀ w, findWallet s wid = some w → w.balance + a < 0 →
        Transaction.save s none wid txid a = .error (ApiError.negativeBalance "amount")) := by
  refine ⟨fun s' h => ?_, fun s' h => ?_, fun w hw hlt => ?_⟩
  · cases pk? with
    | none => exact (save_create_ok h).1
    | some pk => exact (save_update_ok h).1
  · exact clean_create_ok (full_clean_ok (save_create_ok h).1).1
  · have hcl : Transaction.clean s none wid a = .error (ApiError.negativeBalance "amount") := by
      unfold Transaction.clean
      rw [hw]
      exact if_pos hlt
    unfold Transaction.save Transaction.full_clean
    rw [hcl]
    rfl

theorem claim_C10_witness :
    Transaction.save sampleState none 1 "overdraft" (-11)
      = .error (ApiError.negativeBalance "amount") :=
  (claim_C10 sampleState none 1 "overdraft" (-11)).2.2 ⟨1, "ops", 10⟩ (by rfl) (by decide)

/-- Claim C9: two concurrent creates on one wallet are serialized by
the exclusive row lock, which is acquired before the balance is read
for validation and held until the delta is applied.  In every execution
of the lock machine in which both requests committed, the final balance
accounts for both deltas (no lost update) and is non-negative — so from
a non-negative starting balance the two can never both succeed when
their combined effect would drive the balance negative, and the later
request validated against the balance the earlier one committed. -/
theorem claim_C9 (a0 a1 B : Int) (hB : 0 ≤ B) (st : Sched)
    (h : ReachSched ![a0, a1] B st)
    (h0 : st.ph 0 = Phase.finished true) (h1 : st.ph 1 = Phase.finished true) :
    st.bal = B + a0 + a1 ∧ 0 ≤ B + a0 + a1 := by
  obtain ⟨hsum, hnn, -⟩ := reach_schedInv h
  have hc0 : contrib ![a0, a1] st 0 = a0 := by simp [contrib, h0]
  have hc1 : contrib ![a0, a1] st 1 = a1 := by simp [contrib, h1]
  rw [hc0, hc1] at hsum
  exact ⟨hsum, hsum ▸ hnn hB⟩

def sched0 : Sched := initSched 0

def sched1 : Sched :=
  { sched0 with lock := some 0, ph := Function.update sched0.ph 0 (Phase.locked sched0.bal) }

def sched2 : Sched :=
  { sched1 with bal := sched1.bal + (![1, 2] : Fin 2 → Int) 0, lock := none, ph := Function.update sched1.ph 0 (Phase.finished true) }

def sched3 : Sched :=
  { sched2 with lock := some 1, ph := Function.update sched2.ph 1 (Phase.locked sched2.bal) }

def sched4 : Sched :=
  { sched3 with bal := sched3.bal + (![1, 2] : Fin 2 → Int) 1, lock := none, ph := Function.update sched3.ph 1 (Phase.finished true) }

theorem reach_sched4 : ReachSched ![1, 2] 0 sched4 := by
  have r0 : ReachSched ![1, 2] 0 sched0 := ReachSched.init
  have r1 : ReachSched ![1, 2] 0 sched1 :=
    ReachSched.step _ _ r0 (LStep.acquire sched0 0 (by rfl) (by rfl))
  have r2 : ReachSched ![1, 2] 0 sched2 :=
    ReachSched.step _ _ r1 (LStep.commit sched1 0 0 (by rfl) (by rfl) (by decide))
  have r3 : ReachSched ![1, 2] 0 sched3 :=
    ReachSched.step _ _ r2 (LStep.acquire sched2 1 (by rfl) (by rfl))
  exact ReachSched.step _ _ r3 (LStep.commit sched3 1 sched2.bal (by rfl) (by rfl) (by decide))

theorem claim_C9_witness : sched4.bal = 0 + 1 + 2 ∧ 0 ≤ (0 : Int) + 1 + 2 :=
  claim_C9 1 2 0 (by decide) sched4 reach_sched4 (by rfl) (by rfl)
